import Mathlib

/-!
# Verification of the format-resolution and progress-parsing logic of
# `universal-video-downloader` (`src/downloader.py`)

This file gives a shallow embedding of the two pieces of non-trivial logic
in the repository:

* the format resolver inside `UniversalVideoDownloader.fetch_qualities`
  (the loop building `quality_map` and the final `sorted(...)` call,
  `downloader.py` lines 238-282), and
* the progress-line extractor inside `UniversalVideoDownloader.download_video`
  (lines 354-367), together with the format-selector construction
  (lines 335-340) and the "already in progress" guard (lines 318-320).

Python values are modelled as follows: yt-dlp format dictionaries become the
`Format` structure (the fields the code reads: `format_id`, `height`,
`vcodec`, `acodec`, `tbr`, `abr`; a missing or `null` JSON field is `none`);
Python floats, on which the code only does comparisons and string-to-number
parsing, become `ℚ`; the insertion-ordered Python `dict` becomes an
association list with in-place update (`dictSet`); `sorted(..., reverse=True)`
becomes `List.mergeSort` with the reversed comparison, which has the same
stable-descending semantics.
-/

/-- One yt-dlp format dictionary, with exactly the keys the Python code reads.
`fmt.get('vcodec')` returns `none` when the key is absent, and the code
compares it with the string `"none"`; likewise for `acodec`.  `tbr`/`abr` are
floats-or-null, modelled as `Option ℚ`.  `height` is an int-or-null; the code
tests it for truthiness (`if height:`), so `some 0` behaves like `none`.
`format_id` is read with brackets (`fmt['format_id']`), i.e. assumed present,
so it is a plain field. -/
structure Format where
  format_id : String
  height : Option Int
  vcodec : Option String
  acodec : Option String
  tbr : Option ℚ
  abr : Option ℚ
deriving DecidableEq, Repr

/-- `x.get('tbr', 0) or 0` / `x.get('abr', 0) or 0`: a missing or null value
is read as `0` (and `or 0` sends a stored `0.0` to `0`, which is the identity
on `ℚ`). -/
def orZero : Option ℚ → ℚ
  | none => 0
  | some q => q

/-- A value stored in `quality_map`.  The combined branch (line 249) stores
the raw format dictionary; the video-only branch (lines 270-276) stores a
fresh dictionary with keys `video_format_id`, `audio_format_id`, `height`,
`video_tbr` and `combined: True`. -/
inductive QEntry where
  | comb (fmt : Format)
  | paired (video_format_id : String) (audio_format_id : String)
      (height : Int) (video_tbr : ℚ)
deriving DecidableEq, Repr

/-- `quality_map.get(quality_key, {}).get('tbr', 0) or 0` (line 247): a raw
combined dictionary may carry `tbr`; the paired dictionary has no `tbr` key,
so the read defaults to `0`. -/
def entryTbr : QEntry → ℚ
  | .comb f => orZero f.tbr
  | .paired _ _ _ _ => 0

/-- `quality_map.get(quality_key, {}).get('video_tbr', 0) or 0` (line 267): a
raw yt-dlp dictionary has no `video_tbr` key, so a combined entry reads as
`0`; the paired dictionary carries `video_tbr`. -/
def entryVideoTbr : QEntry → ℚ
  | .comb _ => 0
  | .paired _ _ _ vt => vt

/-- `x[1].get('height', 0) or 0`, the sort key at lines 279-280. -/
def sortHeight : QEntry → Int
  | .comb f => f.height.getD 0
  | .paired _ _ h _ => h

/-- The dictionary key `f"{height}p"` (lines 245, 254). -/
def qkey (h : Int) : String := toString h ++ "p"

/-- `quality_map`: an insertion-ordered Python dict from string keys to
entries. -/
abbrev QMap := List (String × QEntry)

/-- `m.get(k)`: the value at key `k`, if present. -/
def dictGet? (m : QMap) (k : String) : Option QEntry :=
  (m.find? (fun p => p.1 = k)).map (fun p => p.2)

/-- `m[k] = v` on a Python dict: update in place if the key exists, else
append at the end (Python dicts preserve insertion order). -/
def dictSet (m : QMap) (k : String) (v : QEntry) : QMap :=
  if m.any (fun p => p.1 = k) then
    m.map (fun p => if p.1 = k then (k, v) else p)
  else
    m ++ [(k, v)]

/-- `fmt.get('vcodec') != 'none' and fmt.get('acodec') != 'none'` (line 241).
Note a missing codec key (`none`) also counts as "not the string none". -/
def isCombined (f : Format) : Bool :=
  decide (f.vcodec ≠ some "none") && decide (f.acodec ≠ some "none")

/-- `fmt.get('vcodec') != 'none' and fmt.get('acodec') == 'none'` (line 250). -/
def isVideoOnly (f : Format) : Bool :=
  decide (f.vcodec ≠ some "none") && decide (f.acodec = some "none")

/-- `audio_fmt.get('acodec') != 'none' and audio_fmt.get('vcodec') == 'none'`
(line 259). -/
def isAudioOnly (f : Format) : Bool :=
  decide (f.acodec ≠ some "none") && decide (f.vcodec = some "none")

/-- The body of the best-audio scan (lines 259-263): an audio-only format
becomes the candidate if there is none yet or its `abr` read is strictly
larger than the current candidate's; every other format is skipped. -/
def audioStep (best : Option Format) (f : Format) : Option Format :=
  if isAudioOnly f then
    match best with
    | none => some f
    | some b => if orZero f.abr > orZero b.abr then some f else best
  else best

/-- The inner best-audio scan (lines 257-263): fold `audioStep` over the
whole `formats` list starting from `None`. -/
def bestAudio (formats : List Format) : Option Format :=
  formats.foldl audioStep none

/-- One iteration of the `for fmt in formats:` loop (lines 240-276) acting on
`quality_map`.  The combined branch compares `tbr` against the stored entry's
`tbr` read; the video-only branch runs only when a best audio format exists
and compares its `tbr` against the stored entry's `video_tbr` read. -/
def processFmt (formats : List Format) (m : QMap) (fmt : Format) : QMap :=
  if isCombined fmt then
    match fmt.height with
    | some h =>
      if h ≠ 0 then
        let key := qkey h
        let current_tbr := orZero fmt.tbr
        let existing_tbr := (dictGet? m key).elim 0 entryTbr
        if dictGet? m key = none ∨ current_tbr > existing_tbr then
          dictSet m key (.comb fmt)
        else m
      else m
    | none => m
  else if isVideoOnly fmt then
    match fmt.height with
    | some h =>
      if h ≠ 0 then
        match bestAudio formats with
        | some best_audio =>
          let key := qkey h
          let current_video_tbr := orZero fmt.tbr
          let existing_video_tbr := (dictGet? m key).elim 0 entryVideoTbr
          if dictGet? m key = none ∨ current_video_tbr > existing_video_tbr then
            dictSet m key
              (.paired fmt.format_id best_audio.format_id h current_video_tbr)
          else m
        | none => m
      else m
    | none => m
  else m

/-- The whole loop: `quality_map` after processing every format in list
order, starting from the empty dict (line 238). -/
def quality_map (formats : List Format) : QMap :=
  formats.foldl (processFmt formats) []

/-- `sorted(quality_map.items(), key=lambda x: x[1].get('height', 0) or 0,
reverse=True)` (lines 279-282): a stable descending sort on the height read,
i.e. `mergeSort` with the reversed comparison.  This list of
(label, entry) pairs is the resolver's result (`formats_data`). -/
def resolve (formats : List Format) : QMap :=
  (quality_map formats).mergeSort
    (fun a b => decide (sortHeight b.2 ≤ sortHeight a.2))

/-- The tagged union of the spec's data model: `Single(format_id)` or
`Paired(video_format_id, audio_format_id)`. -/
inductive FormatSelection where
  | Single (format_id : String)
  | Paired (video_id : String) (audio_id : String)
deriving DecidableEq, Repr

/-- The selection a stored entry denotes, per the spec's data model: a raw
combined dictionary is a `Single` of its format id; a constructed paired
dictionary is a `Paired` of its two ids. -/
def selectionOf : QEntry → FormatSelection
  | .comb f => .Single f.format_id
  | .paired v a _ _ => .Paired v a

/-- The format selector string built at lines 335-340 of `download_video`:
`format_info.get('combined')` is truthy exactly on the constructed paired
dictionaries, which yield `f"{video_format_id}+{audio_format_id}"`; raw
combined dictionaries yield the bare `format_id`. -/
def format_selector : QEntry → String
  | .paired v a _ _ => v ++ "+" ++ a
  | .comb f => f.format_id

/-! ## Progress extractor (`download_video`, lines 354-367) -/

/-- Python substring test `needle in hay` on character lists. -/
def containsSub (hay needle : List Char) : Bool :=
  if needle.isPrefixOf hay then true
  else
    match hay with
    | [] => false
    | _ :: t => containsSub t needle

/-- Attempt to match the regex `(\d+\.?\d*)%` at the start of `cs`, returning
the group's characters.  A maximal digit run is mandatory; if the next
character is `%` the group is that run; if it is `.`, a further maximal digit
run must be followed by `%` and the group spans both runs and the dot.
(Backtracking inside a digit run can never help, since `%` and `.` are not
digits, so this greedy reading coincides with Python's `re` semantics for
this pattern.) -/
def matchPercentAt (cs : List Char) : Option (List Char) :=
  let d1 := cs.takeWhile Char.isDigit
  if d1.isEmpty then none
  else
    match cs.dropWhile Char.isDigit with
    | '%' :: _ => some d1
    | '.' :: rest2 =>
      match rest2.dropWhile Char.isDigit with
      | '%' :: _ => some (d1 ++ '.' :: rest2.takeWhile Char.isDigit)
      | _ => none
    | _ => none

/-- `re.search(r'(\d+\.?\d*)%', line)`: the leftmost position at which the
pattern matches, scanning left to right. -/
def searchPercent : List Char → Option (List Char)
  | [] => none
  | c :: cs =>
    match matchPercentAt (c :: cs) with
    | some g => some g
    | none => searchPercent cs

/-- `int(digits)` on a list of decimal digit characters. -/
def digitsToNat (ds : List Char) : Nat :=
  ds.foldl (fun n c => 10 * n + (c.toNat - '0'.toNat)) 0

/-- `float(group)` where the group matched `\d+\.?\d*`: an integer part and
an optional fractional part (possibly an empty fraction after the dot, as in
`"12."`). -/
def parseFloat (g : List Char) : ℚ :=
  match g.dropWhile Char.isDigit with
  | '.' :: frac =>
    (digitsToNat (g.takeWhile Char.isDigit) : ℚ) + (digitsToNat frac : ℚ) / 10 ^ frac.length
  | _ => (digitsToNat (g.takeWhile Char.isDigit) : ℚ)

/-- The coarse phase reported by a progress line. -/
inductive Phase where
  | Downloading
  | Merging
deriving DecidableEq, Repr

/-- The information one output line contributes: an optional percentage and a
phase.  The downloading branch sets both; the merging branch sets only the
phase. -/
structure DownloadProgress where
  percent : Option ℚ
  phase : Phase
deriving DecidableEq, Repr

/-- The per-line progress extraction of `download_video` (lines 354-367):
if the line contains `'[download]'` and `'%'`, search for `(\d+\.?\d*)%`; a
match reports `Downloading` with the parsed percentage, no match reports
nothing (the `elif` is not reached).  Otherwise, a line containing
`'Merging formats'` reports `Merging`; any other line reports nothing. -/
def extract (line : String) : Option DownloadProgress :=
  let cs := line.toList
  if containsSub cs "[download]".toList && containsSub cs "%".toList then
    match searchPercent cs with
    | some g => some ⟨some (parseFloat g), .Downloading⟩
    | none => none
  else if containsSub cs "Merging formats".toList then
    some ⟨none, .Merging⟩
  else none

/-! ## Download-request guard (`download_video`, lines 314-320) -/

/-- The application state read by the guard at the top of `download_video`:
the URL entry, the selected quality, whether a download thread is alive, and
the resolved `formats_data` mapping. -/
structure AppState where
  url_var : String
  quality_var : String
  downloadActive : Bool
  formats_data : QMap
deriving DecidableEq, Repr

/-- The observable outcome of pressing the download button. -/
inductive DownloadOutcome where
  | missingInput
  | alreadyInProgress
  | started (selector : String)
  | lookupError
deriving DecidableEq, Repr

/-- `download_video`'s entry behaviour (lines 312-348): an empty quality or
URL is rejected with a warning; a live download thread is rejected with
"Download already in progress!"; otherwise the thread starts and builds the
format selector from `formats_data[quality]` (a missing key raises, caught as
a download error). Starting marks a download thread as alive. -/
def download_video (s : AppState) : AppState × DownloadOutcome :=
  if s.quality_var = "" ∨ s.url_var = "" then (s, .missingInput)
  else if s.downloadActive then (s, .alreadyInProgress)
  else
    match dictGet? s.formats_data s.quality_var with
    | some format_info =>
      ({ s with downloadActive := true }, .started (format_selector format_info))
    | none => ({ s with downloadActive := true }, .lookupError)

/-! ## Concrete stream descriptors used in examples, witnesses and
counterexamples -/

/-- A combined (video+audio) descriptor with the given id, height and total
bitrate. -/
def mkComb (id : String) (h : Int) (t : ℚ) : Format :=
  { format_id := id, height := some h, vcodec := some "avc1", acodec := some "mp4a",
    tbr := some t, abr := none }

/-- A video-only descriptor with the given id, height and total bitrate. -/
def mkVid (id : String) (h : Int) (t : ℚ) : Format :=
  { format_id := id, height := some h, vcodec := some "avc1", acodec := some "none",
    tbr := some t, abr := none }

/-- An audio-only descriptor with the given id and audio bitrate. -/
def mkAud (id : String) (a : ℚ) : Format :=
  { format_id := id, height := none, vcodec := some "none", acodec := some "mp4a",
    tbr := none, abr := some a }

/-- The invariant of `quality_map`: keys are pairwise distinct and every
stored pair sits under the key built from its own (nonzero) height read. -/
def goodMap (m : QMap) : Prop :=
  (m.map Prod.fst).Nodup ∧
    ∀ p ∈ m, ∃ h : Int, h ≠ 0 ∧ p.1 = qkey h ∧ sortHeight p.2 = h

/-! ## Basic facts about the embedded dictionary operations -/

theorem dictSet_map_fst (m : QMap) (k : String) (v : QEntry) :
    (dictSet m k v).map Prod.fst =
      if m.any (fun p => p.1 = k) then m.map Prod.fst else m.map Prod.fst ++ [k] := by
  unfold dictSet
  split
  · rw [List.map_map]
    apply List.map_congr_left
    intro p _
    by_cases hp : p.1 = k <;> simp [hp]
  · simp

theorem dictSet_nodup_fst (m : QMap) (k : String) (v : QEntry)
    (hm : (m.map Prod.fst).Nodup) : ((dictSet m k v).map Prod.fst).Nodup := by
  rw [dictSet_map_fst]
  split
  · exact hm
  · next h =>
    simp only [List.nodup_append, List.nodup_singleton, true_and]
    refine ⟨hm, ?_⟩
    intro x hx hk
    rw [List.mem_map] at hx
    obtain ⟨p, hp, rfl⟩ := hx
    apply h
    rw [List.any_eq_true]
    exact ⟨p, hp, by simpa using hk⟩

theorem mem_dictSet (m : QMap) (k : String) (v : QEntry) (p : String × QEntry)
    (hp : p ∈ dictSet m k v) : p ∈ m ∨ p = (k, v) := by
  unfold dictSet at hp
  split at hp
  · rw [List.mem_map] at hp
    obtain ⟨q, hq, hqe⟩ := hp
    by_cases hk : q.1 = k
    · right
      rw [← hqe]
      simp [hk]
    · left
      rw [← hqe]
      simpa [hk] using hq
  · rw [List.mem_append] at hp
    rcases hp with h | h
    · exact Or.inl h
    · exact Or.inr (by simpa using h)

/-- One loop iteration either leaves the map unchanged or stores, under the
key built from a nonzero height, an entry whose height read equals that
height: the raw combined dictionary itself, or a paired dictionary built
with the best audio format (which must then exist). -/
theorem processFmt_cases (formats : List Format) (m : QMap) (fmt : Format) :
    processFmt formats m fmt = m ∨
      ∃ (h : Int) (v : QEntry), h ≠ 0 ∧ sortHeight v = h ∧
        processFmt formats m fmt = dictSet m (qkey h) v ∧
        (v = QEntry.comb fmt ∨ ∃ ba, bestAudio formats = some ba ∧
          v = QEntry.paired fmt.format_id ba.format_id h (orZero fmt.tbr)) := by
  unfold processFmt
  split
  · split
    · next h heq =>
      split
      · next hne =>
        dsimp only
        split
        · exact Or.inr ⟨h, .comb fmt, hne, by simp [sortHeight, heq], rfl, Or.inl rfl⟩
        · exact Or.inl rfl
      · exact Or.inl rfl
    · exact Or.inl rfl
  · split
    · split
      · next h heq =>
        split
        · next hne =>
          split
          · next ba hba =>
            dsimp only
            split
            · exact Or.inr ⟨h, .paired fmt.format_id ba.format_id h (orZero fmt.tbr),
                hne, rfl, rfl, Or.inr ⟨ba, hba, rfl⟩⟩
            · exact Or.inl rfl
          · exact Or.inl rfl
        · exact Or.inl rfl
      · exact Or.inl rfl
    · exact Or.inl rfl

theorem goodMap_nil : goodMap [] := ⟨List.nodup_nil, by simp⟩

theorem goodMap_dictSet (m : QMap) (k : String) (v : QEntry) (hm : goodMap m)
    (h : Int) (hh : h ≠ 0) (hk : k = qkey h) (hv : sortHeight v = h) :
    goodMap (dictSet m k v) := by
  refine ⟨dictSet_nodup_fst m k v hm.1, ?_⟩
  intro p hp
  rcases mem_dictSet m k v p hp with h' | h'
  · exact hm.2 p h'
  · subst h'
    exact ⟨h, hh, hk, hv⟩

theorem goodMap_processFmt (formats : List Format) (m : QMap) (fmt : Format)
    (hm : goodMap m) : goodMap (processFmt formats m fmt) := by
  rcases processFmt_cases formats m fmt with he | ⟨h, v, hne, hs, he, _⟩
  · rw [he]; exact hm
  · rw [he]; exact goodMap_dictSet m _ v hm h hne rfl hs

/-- Any property preserved by one loop iteration is preserved by the loop. -/
theorem foldl_processFmt_inv (P : QMap → Prop) (formats : List Format)
    (step : ∀ m fmt, P m → P (processFmt formats m fmt)) :
    ∀ (l : List Format) (m : QMap), P m → P (l.foldl (processFmt formats) m)
  | [], _, hm => hm
  | f :: l, m, hm => foldl_processFmt_inv P formats step l _ (step m f hm)

theorem goodMap_quality_map (formats : List Format) : goodMap (quality_map formats) :=
  foldl_processFmt_inv goodMap formats
    (fun m fmt hm => goodMap_processFmt formats m fmt hm) formats [] goodMap_nil

theorem resolve_perm (formats : List Format) :
    (resolve formats).Perm (quality_map formats) :=
  List.mergeSort_perm _ _

theorem resolve_sorted_heights (formats : List Format) :
    (resolve formats).Pairwise (fun a b => sortHeight b.2 ≤ sortHeight a.2) := by
  have hs := @List.sorted_mergeSort (String × QEntry)
      (fun a b => decide (sortHeight b.2 ≤ sortHeight a.2))
      (fun a b c hab hbc => by
        simp only [decide_eq_true_eq] at *
        exact le_trans hbc hab)
      (fun a b => by
        simp only [Bool.or_eq_true, decide_eq_true_eq]
        exact le_total _ _)
      (quality_map formats)
  exact hs.imp (fun h => by simpa using h)

theorem quality_map_pairwise (formats : List Format) :
    (quality_map formats).Pairwise
      (fun a b => a.1 ≠ b.1 ∧ sortHeight a.2 ≠ sortHeight b.2) := by
  obtain ⟨hnd, hinv⟩ := goodMap_quality_map formats
  rw [List.Nodup, List.pairwise_map] at hnd
  refine hnd.imp_of_mem ?_
  intro a b ha hb hne
  obtain ⟨hA, hA0, hAk, hAs⟩ := hinv a ha
  obtain ⟨hB, hB0, hBk, hBs⟩ := hinv b hb
  refine ⟨hne, ?_⟩
  intro hs
  apply hne
  rw [hAk, hBk, hAs, hBs] at *
  rw [hs] at hAk ⊢

/-- Claim C3: for every descriptor list, the options returned by `resolve`
are ordered by non-increasing height (the sort key read from each stored
entry). -/
theorem C3_resolve_sorted_desc (formats : List Format) :
    (resolve formats).Pairwise (fun a b => sortHeight b.2 ≤ sortHeight a.2) :=
  resolve_sorted_heights formats

/-- Claim C4: for every descriptor list, `resolve` never produces two options
with the same label, and no two options share a height. -/
theorem C4_resolve_labels_unique (formats : List Format) :
    (resolve formats).Pairwise
      (fun a b => a.1 ≠ b.1 ∧ sortHeight a.2 ≠ sortHeight b.2) :=
  (quality_map_pairwise formats).perm (resolve_perm formats).symm
    (fun h => ⟨Ne.symm h.1, Ne.symm h.2⟩)

theorem bestAudio_eq_none (formats : List Format)
    (h : ∀ f ∈ formats, isAudioOnly f = false) : bestAudio formats = none := by
  unfold bestAudio
  induction formats with
  | nil => rfl
  | cons f l ih =>
    have hf := h f (List.mem_cons_self f l)
    simp only [List.foldl_cons, audioStep, hf]
    exact ih (fun g hg => h g (List.mem_cons_of_mem f hg))

theorem foldl_audioStep_spec (l : List Format) :
    ∀ (acc : Option Format) (b : Format), l.foldl audioStep acc = some b →
      ((b ∈ l ∧ isAudioOnly b = true) ∨ acc = some b) ∧
      (∀ f ∈ l, isAudioOnly f = true → orZero f.abr ≤ orZero b.abr) ∧
      (∀ a, acc = some a → orZero a.abr ≤ orZero b.abr) := by
  induction l with
  | nil =>
    intro acc b hb
    simp only [List.foldl_nil] at hb
    refine ⟨Or.inr hb, by simp, ?_⟩
    intro a ha
    rw [ha] at hb
    cases hb
    exact le_refl _
  | cons f l ih =>
    intro acc b hb
    simp only [List.foldl_cons] at hb
    obtain ⟨P1, P2, P3⟩ := ih (audioStep acc f) b hb
    have hstep : ∀ a, audioStep acc f = some a →
        (a = f ∧ isAudioOnly f = true) ∨ acc = some a := by
      intro a ha
      by_cases haud : isAudioOnly f = true
      · cases acc with
        | none =>
          simp only [audioStep, haud, if_true] at ha
          cases ha
          exact Or.inl ⟨rfl, haud⟩
        | some c =>
          by_cases hgt : orZero f.abr > orZero c.abr
          · simp [audioStep, haud, hgt] at ha
            cases ha
            exact Or.inl ⟨rfl, haud⟩
          · simp [audioStep, haud, hgt] at ha
            exact Or.inr (by rw [ha])
      · simp only [audioStep, haud, if_false, Bool.false_eq_true] at ha
        exact Or.inr ha
    have hfle : isAudioOnly f = true → orZero f.abr ≤ orZero b.abr := by
      intro haud
      cases acc with
      | none => exact P3 f (by simp [audioStep, haud])
      | some c =>
        by_cases hgt : orZero f.abr > orZero c.abr
        · exact P3 f (by simp [audioStep, haud, hgt])
        · have := P3 c (by simp [audioStep, haud, hgt])
          exact le_trans (not_lt.mp hgt) this
    refine ⟨?_, ?_, ?_⟩
    · rcases P1 with ⟨hm, hA⟩ | hacc
      · exact Or.inl ⟨List.mem_cons_of_mem f hm, hA⟩
      · rcases hstep b hacc with ⟨rfl, hA⟩ | h'
        · exact Or.inl ⟨List.mem_cons_self b l, hA⟩
        · exact Or.inr h'
    · intro g hg haud
      rcases List.mem_cons.mp hg with rfl | hg'
      · exact hfle haud
      · exact P2 g hg' haud
    · intro a ha
      subst ha
      by_cases haud : isAudioOnly f = true
      · by_cases hgt : orZero f.abr > orZero a.abr
        · have := P3 f (by simp [audioStep, haud, hgt])
          exact le_trans (le_of_lt hgt) this
        · exact P3 a (by simp [audioStep, haud, hgt])
      · exact P3 a (by simp [audioStep, haud])

theorem bestAudio_spec (formats : List Format) (b : Format)
    (hb : bestAudio formats = some b) :
    b ∈ formats ∧ isAudioOnly b = true ∧
      ∀ f ∈ formats, isAudioOnly f = true → orZero f.abr ≤ orZero b.abr := by
  obtain ⟨P1, P2, _⟩ := foldl_audioStep_spec formats none b hb
  rcases P1 with ⟨hm, hA⟩ | h'
  · exact ⟨hm, hA, P2⟩
  · cases h'

theorem quality_map_all_comb (formats : List Format)
    (h : ∀ f ∈ formats, isAudioOnly f = false) :
    ∀ p ∈ quality_map formats, ∃ fm, p.2 = QEntry.comb fm := by
  have hba : bestAudio formats = none := bestAudio_eq_none formats h
  refine foldl_processFmt_inv (fun m => ∀ p ∈ m, ∃ fm, p.2 = QEntry.comb fm)
    formats ?_ formats [] (by simp)
  intro m fmt hm p hp
  rcases processFmt_cases formats m fmt with he | ⟨hh, v, _, _, he, hv⟩
  · rw [he] at hp
    exact hm p hp
  · rw [he] at hp
    rcases mem_dictSet _ _ _ p hp with h' | h'
    · exact hm p h'
    · subst h'
      rcases hv with rfl | ⟨ba, hba', _⟩
      · exact ⟨fmt, rfl⟩
      · rw [hba] at hba'
        cases hba'

/-- Claim C8: with no audio-only descriptor in the list, `resolve` produces
only combined entries (video-only descriptors are skipped); and whenever the
best-audio scan returns a format, that format is an audio-only member of the
list whose `abr` read (missing treated as 0) is maximal. -/
theorem C8_no_audio_skips_video_only :
    (∀ formats : List Format, (∀ f ∈ formats, isAudioOnly f = false) →
      ∀ p ∈ resolve formats, ∃ fm, p.2 = QEntry.comb fm) ∧
    (∀ (formats : List Format) (b : Format), bestAudio formats = some b →
      b ∈ formats ∧ isAudioOnly b = true ∧
        ∀ f ∈ formats, isAudioOnly f = true → orZero f.abr ≤ orZero b.abr) := by
  constructor
  · intro formats h p hp
    exact quality_map_all_comb formats h p ((resolve_perm formats).mem_iff.mp hp)
  · intro formats b hb
    exact bestAudio_spec formats b hb

/-- Witness for C8: a list with no audio-only descriptor resolves to
combined entries only, and on a two-element audio list the scan picks the
higher-bitrate one. -/
theorem C8_witness :
    (∀ p ∈ resolve [mkComb "c" 720 2000, mkVid "v" 1080 8000],
      ∃ fm, p.2 = QEntry.comb fm) ∧
    (mkAud "a2" 160 ∈ [mkAud "a1" 128, mkAud "a2" 160] ∧
      isAudioOnly (mkAud "a2" 160) = true ∧
      ∀ f ∈ [mkAud "a1" 128, mkAud "a2" 160],
        isAudioOnly f = true → orZero f.abr ≤ orZero (mkAud "a2" 160).abr) :=
  ⟨C8_no_audio_skips_video_only.1 [mkComb "c" 720 2000, mkVid "v" 1080 8000]
      (by decide),
    C8_no_audio_skips_video_only.2 [mkAud "a1" 128, mkAud "a2" 160]
      (mkAud "a2" 160) (by decide)⟩


theorem containsSub_of_mem (a : Char) (l : List Char) (h : a ∈ l) :
    containsSub l [a] = true := by
  induction l with
  | nil => cases h
  | cons x t ih =>
    rw [containsSub]
    by_cases hp : List.isPrefixOf [a] (x :: t) = true
    · rw [if_pos hp]
    · rw [if_neg hp]
      rcases List.mem_cons.mp h with rfl | ht
      · exfalso
        apply hp
        simp [List.isPrefixOf]
      · exact ih ht

theorem percent_mem_of_matchPercentAt (cs g : List Char)
    (h : matchPercentAt cs = some g) : '%' ∈ cs := by
  simp only [matchPercentAt] at h
  split at h
  · cases h
  · split at h
    · next heq =>
      refine (List.dropWhile_sublist Char.isDigit).subset ?_
      rw [heq]
      exact List.mem_cons_self _ _
    · next rest2 heq =>
      split at h
      · next heq2 =>
        refine (List.dropWhile_sublist Char.isDigit).subset ?_
        rw [heq]
        refine List.mem_cons_of_mem _ ?_
        refine (List.dropWhile_sublist Char.isDigit).subset ?_
        rw [heq2]
        exact List.mem_cons_self _ _
      · cases h
    · cases h

theorem percent_mem_of_searchPercent (cs g : List Char)
    (h : searchPercent cs = some g) : '%' ∈ cs := by
  induction cs with
  | nil => cases h
  | cons c t ih =>
    rw [searchPercent] at h
    split at h
    · next heq => exact percent_mem_of_matchPercentAt _ _ heq
    · exact List.mem_cons_of_mem c (ih h)

theorem extract_of_search (line : String) (g : List Char)
    (hmark : containsSub line.toList "[download]".toList = true)
    (hsearch : searchPercent line.toList = some g) :
    extract line = some ⟨some (parseFloat g), Phase.Downloading⟩ := by
  have hpc : containsSub line.toList "%".toList = true :=
    containsSub_of_mem '%' line.toList (percent_mem_of_searchPercent _ _ hsearch)
  have hmark' : containsSub line.data ['[', 'd', 'o', 'w', 'n', 'l', 'o', 'a', 'd', ']'] = true := hmark
  have hpc' : containsSub line.data ['%'] = true := hpc
  have hsearch' : searchPercent line.data = some g := hsearch
  simp [extract, hmark', hpc', hsearch']

theorem parseFloat_45_3 : parseFloat ['4', '5', '.', '3'] = 453 / 10 := by
  have h1 : List.dropWhile Char.isDigit ['4', '5', '.', '3'] = ['.', '3'] := by decide
  have h2 : List.takeWhile Char.isDigit ['4', '5', '.', '3'] = ['4', '5'] := by decide
  have h3 : digitsToNat ['4', '5'] = 45 := by decide
  have h4 : digitsToNat ['3'] = 3 := by decide
  simp only [parseFloat, h1, h2, h3, h4, List.length_cons, List.length_nil]
  norm_num

theorem parseFloat_150_5 : parseFloat ['1', '5', '0', '.', '5'] = 301 / 2 := by
  have h1 : List.dropWhile Char.isDigit ['1', '5', '0', '.', '5'] = ['.', '5'] := by decide
  have h2 : List.takeWhile Char.isDigit ['1', '5', '0', '.', '5'] = ['1', '5', '0'] := by decide
  have h3 : digitsToNat ['1', '5', '0'] = 150 := by decide
  have h4 : digitsToNat ['5'] = 5 := by decide
  simp only [parseFloat, h1, h2, h3, h4, List.length_cons, List.length_nil]
  norm_num

theorem parseFloat_nonneg (g : List Char) : 0 ≤ parseFloat g := by
  unfold parseFloat
  split
  · positivity
  · positivity

/-- Claim C7 (amended): every percentage produced by `extract` is a
nonnegative rational.  (The upper bound 100 claimed by the spec is not
enforced by the code; see the counterexample.) -/
theorem C7_percent_nonneg (line : String) (dp : DownloadProgress)
    (h : extract line = some dp) (q : ℚ) (hq : dp.percent = some q) : 0 ≤ q := by
  simp only [extract] at h
  split at h
  · split at h
    · next g heq =>
      cases h
      cases hq
      exact parseFloat_nonneg g
    · simp at h
  · split at h
    · cases h
      simp at hq
    · simp at h

/-- Counterexample to C7 as stated: a line announcing 150.5% is parsed and
reported as a percentage strictly above 100, so the produced percent is not
in the interval claimed by the spec. -/
theorem C7_counterexample :
    extract "[download] 150.5% of 10MiB" =
      some ⟨some (301 / 2 : ℚ), Phase.Downloading⟩ ∧ ¬((301 / 2 : ℚ) ≤ 100) := by
  constructor
  · have h := extract_of_search "[download] 150.5% of 10MiB" ['1', '5', '0', '.', '5']
      (by decide) (by decide)
    rw [h, parseFloat_150_5]
  · norm_num

/-- Witness for C7 (amended): the nonnegativity theorem applied at a
concrete downloading line. -/
theorem C7_witness :
    extract "[download] 12% of 3MiB" = some ⟨some (12 : ℚ), Phase.Downloading⟩ ∧
    (0 : ℚ) ≤ 12 :=
  ⟨by decide,
    C7_percent_nonneg "[download] 12% of 3MiB" ⟨some (12 : ℚ), Phase.Downloading⟩
      (by decide) 12 rfl⟩

/-- Claim C6 (amended): a line that does not contain both the download
marker and a percent character reports `Merging` exactly when it contains
the merge marker and otherwise nothing; and a line that does contain the
marker and a percent character but no parseable percentage yields nothing
(even when it also contains the merge marker, since the merge branch is an
`elif` that is then never reached). -/
theorem C6_non_download_lines :
    (∀ line : String,
        ¬(containsSub line.toList "[download]".toList = true ∧
          containsSub line.toList "%".toList = true) →
        extract line =
          if containsSub line.toList "Merging formats".toList = true then
            some ⟨none, Phase.Merging⟩
          else none) ∧
    (∀ line : String,
        containsSub line.toList "[download]".toList = true →
        containsSub line.toList "%".toList = true →
        searchPercent line.toList = none →
        extract line = none) := by
  constructor
  · intro line h
    have hf : (containsSub line.data ['[', 'd', 'o', 'w', 'n', 'l', 'o', 'a', 'd', ']'] &&
        containsSub line.data ['%']) = false := by
      cases hA : containsSub line.toList "[download]".toList <;>
        cases hB : containsSub line.toList "%".toList <;> simp_all
    simp [extract, hf]
  · intro line h1 h2 h3
    have h1' : containsSub line.data ['[', 'd', 'o', 'w', 'n', 'l', 'o', 'a', 'd', ']'] = true := h1
    have h2' : containsSub line.data ['%'] = true := h2
    have h3' : searchPercent line.data = none := h3
    simp [extract, h1', h2', h3']

/-- Counterexample to C6 as stated: this line fails the downloading rule
(no digit run before its percent sign) and contains the merge marker, so the
claim requires `Merging`, yet `extract` returns nothing because the first
branch was taken on the marker-and-percent test and the `elif` is skipped. -/
theorem C6_counterexample :
    extract "[download] % Merging formats" = none ∧
    containsSub "[download] % Merging formats".toList "Merging formats".toList = true ∧
    searchPercent "[download] % Merging formats".toList = none := by
  refine ⟨by decide, by decide, by decide⟩

/-- Witness for C6 (amended) at concrete lines: a merge line reports
`Merging`, an unrelated line reports nothing, and a marker line with a
percent sign but no parseable percentage reports nothing. -/
theorem C6_witness :
    extract "[Merging formats into output.mp4]" = some ⟨none, Phase.Merging⟩ ∧
    extract "random unrelated log line" = none ∧
    extract "[download] unknown % so far" = none := by
  refine ⟨?_, ?_, ?_⟩
  · have h := C6_non_download_lines.1 "[Merging formats into output.mp4]" (by decide)
    simpa using h
  · have h := C6_non_download_lines.1 "random unrelated log line" (by decide)
    simpa using h
  · exact C6_non_download_lines.2 "[download] unknown % so far" (by decide) (by decide) (by decide)

/-- Claim C5: for every line containing the download marker on which the
percent regex `(\d+\.?\d*)%` matches, `extract` parses the first (leftmost)
such numeric value as the percentage and reports phase `Downloading`; in
particular the spec's example line yields 45.3 and `Downloading`. -/
theorem C5_downloading_rule :
    (∀ (line : String) (g : List Char),
        containsSub line.toList "[download]".toList = true →
        searchPercent line.toList = some g →
        extract line = some ⟨some (parseFloat g), Phase.Downloading⟩) ∧
    extract "[download]  45.3% of 10MiB" =
      some ⟨some (453 / 10 : ℚ), Phase.Downloading⟩ := by
  refine ⟨extract_of_search, ?_⟩
  have h := extract_of_search "[download]  45.3% of 10MiB" ['4', '5', '.', '3']
    (by decide) (by decide)
  rw [h, parseFloat_45_3]

/-- Witness for C5: the downloading rule applied at a concrete line, with
both hypotheses discharged by evaluation. -/
theorem C5_witness :
    containsSub "[download]   5.0% done".toList "[download]".toList = true ∧
    searchPercent "[download]   5.0% done".toList = some ['5', '.', '0'] ∧
    extract "[download]   5.0% done" =
      some ⟨some (parseFloat ['5', '.', '0']), Phase.Downloading⟩ :=
  ⟨by decide, by decide,
    C5_downloading_rule.1 "[download]   5.0% done" ['5', '.', '0'] (by decide) (by decide)⟩

/-- Claim C2: when a paired candidate is already stored for a height and a
combined descriptor of the same height is processed, the combined one
replaces it exactly when its bitrate exceeds 0 — the comparison reads `tbr`
from the stored paired entry, which has no such key, so it compares against
0 regardless of the paired candidate's video bitrate; consequently `resolve`
is not invariant under permutation of its input, witnessed by a concrete
three-descriptor list and a permutation of it with different results. -/
theorem C2_combined_overwrites_stored_paired :
    (∀ (formats : List Format) (m : QMap) (fmt : Format) (h : Int)
        (v a : String) (ht : Int) (vt : ℚ),
        isCombined fmt = true → fmt.height = some h → h ≠ 0 →
        dictGet? m (qkey h) = some (QEntry.paired v a ht vt) →
        processFmt formats m fmt =
          if 0 < orZero fmt.tbr then dictSet m (qkey h) (QEntry.comb fmt)
          else m) ∧
    ([mkVid "v" 1080 8000, mkAud "a" 128, mkComb "c" 1080 5000].Perm
        [mkComb "c" 1080 5000, mkVid "v" 1080 8000, mkAud "a" 128] ∧
      resolve [mkVid "v" 1080 8000, mkAud "a" 128, mkComb "c" 1080 5000] ≠
        resolve [mkComb "c" 1080 5000, mkVid "v" 1080 8000, mkAud "a" 128]) := by
  refine ⟨?_, by decide, ?_⟩
  · intro formats m fmt h v a ht vt hc hh hne hget
    unfold processFmt
    simp [hc, hh, hne, hget, entryTbr]
  · have hA : resolve [mkVid "v" 1080 8000, mkAud "a" 128, mkComb "c" 1080 5000] =
        [("1080p", QEntry.comb (mkComb "c" 1080 5000))] := by
      rw [resolve, (by decide :
        quality_map [mkVid "v" 1080 8000, mkAud "a" 128, mkComb "c" 1080 5000] =
          [("1080p", QEntry.comb (mkComb "c" 1080 5000))])]
      exact List.mergeSort_of_sorted (by simp)
    have hB : resolve [mkComb "c" 1080 5000, mkVid "v" 1080 8000, mkAud "a" 128] =
        [("1080p", QEntry.paired "v" "a" 1080 8000)] := by
      rw [resolve, (by decide :
        quality_map [mkComb "c" 1080 5000, mkVid "v" 1080 8000, mkAud "a" 128] =
          [("1080p", QEntry.paired "v" "a" 1080 8000)])]
      exact List.mergeSort_of_sorted (by simp)
    rw [hA, hB]
    decide

/-- Witness for C2: a combined 1080p descriptor with bitrate 5000 processed
against a stored paired candidate with video bitrate 8000 still replaces it,
because the stored entry's `tbr` read is 0. -/
theorem C2_witness :
    processFmt [] [("1080p", QEntry.paired "v" "a" 1080 8000)] (mkComb "c" 1080 5000) =
      dictSet [("1080p", QEntry.paired "v" "a" 1080 8000)] (qkey 1080)
        (QEntry.comb (mkComb "c" 1080 5000)) := by
  have h := C2_combined_overwrites_stored_paired.1 []
      [("1080p", QEntry.paired "v" "a" 1080 8000)] (mkComb "c" 1080 5000)
      1080 "v" "a" 1080 8000 (by decide) (by decide) (by decide) (by decide)
  rw [h, if_pos (by decide)]

theorem not_combined_of_videoOnly (f : Format) (h : isVideoOnly f = true) :
    isCombined f = false := by
  unfold isVideoOnly at h
  unfold isCombined
  simp only [Bool.and_eq_true, decide_eq_true_eq] at h
  simp [h.2]

/-- Counterexample to C1 as stated: a combined 1080p descriptor with bitrate
9000 strictly exceeds the paired candidate's video bitrate 1000, so the
claim requires the combined descriptor to win, yet `resolve` returns the
paired selection — the video-only descriptor is processed after the combined
one and reads the missing `video_tbr` key of the stored entry as 0. -/
theorem C1_counterexample :
    (1000 : ℚ) < 9000 ∧
    resolve [mkComb "c" 1080 9000, mkVid "v" 1080 1000, mkAud "a" 128] =
      [("1080p", QEntry.paired "v" "a" 1080 1000)] := by
  refine ⟨by norm_num, ?_⟩
  rw [resolve, (by decide :
    quality_map [mkComb "c" 1080 9000, mkVid "v" 1080 1000, mkAud "a" 128] =
      [("1080p", QEntry.paired "v" "a" 1080 1000)])]
  exact List.mergeSort_of_sorted (by simp)

/-- Claim C1 (amended): the merge between a combined descriptor and a paired
candidate at the same height is order-dependent rather than a bitrate
comparison — a video-only descriptor processed while a combined entry is
stored replaces it exactly when its own video bitrate exceeds 0 (the
`video_tbr` read of the stored combined dictionary is 0); and in the spec's
particular example (combined 1080p at 5000 listed before video-only 1080p at
8000 plus an audio-only descriptor) the paired selection wins. -/
theorem C1_amended_order_dependent_merge :
    (∀ (formats : List Format) (m : QMap) (fmt : Format) (h : Int)
        (cf ba : Format),
        isVideoOnly fmt = true → fmt.height = some h → h ≠ 0 →
        bestAudio formats = some ba →
        dictGet? m (qkey h) = some (QEntry.comb cf) →
        processFmt formats m fmt =
          if 0 < orZero fmt.tbr then
            dictSet m (qkey h)
              (QEntry.paired fmt.format_id ba.format_id h (orZero fmt.tbr))
          else m) ∧
    resolve [mkComb "c" 1080 5000, mkVid "v" 1080 8000, mkAud "a" 128] =
      [("1080p", QEntry.paired "v" "a" 1080 8000)] := by
  constructor
  · intro formats m fmt h cf ba hvo hh hne hba hget
    have hnc : isCombined fmt = false := not_combined_of_videoOnly fmt hvo
    unfold processFmt
    simp [hnc, hvo, hh, hne, hba, hget, entryVideoTbr]
  · rw [resolve, (by decide :
      quality_map [mkComb "c" 1080 5000, mkVid "v" 1080 8000, mkAud "a" 128] =
        [("1080p", QEntry.paired "v" "a" 1080 8000)])]
    exact List.mergeSort_of_sorted (by simp)

/-- Witness for C1 (amended): a video-only 1080p descriptor with bitrate
8000 processed against a stored combined entry replaces it. -/
theorem C1_witness :
    processFmt [mkAud "a" 128] [("1080p", QEntry.comb (mkComb "c" 1080 5000))]
        (mkVid "v" 1080 8000) =
      dictSet [("1080p", QEntry.comb (mkComb "c" 1080 5000))] (qkey 1080)
        (QEntry.paired "v" "a" 1080 8000) := by
  have h := C1_amended_order_dependent_merge.1 [mkAud "a" 128]
      [("1080p", QEntry.comb (mkComb "c" 1080 5000))] (mkVid "v" 1080 8000)
      1080 (mkComb "c" 1080 5000) (mkAud "a" 128)
      (by decide) (by decide) (by decide) (by decide) (by decide)
  rw [h, if_pos (by decide)]
  rfl

/-- Claim C9: the format selector passed to the download command is the bare
format id for a `Single` selection and `video_id + "+" + audio_id` for a
`Paired` selection; and a list holding only a combined 720p descriptor at
bitrate 2000 resolves to exactly one option labeled "720p" whose selection
is `Single`. -/
theorem C9_format_selector_shape :
    (∀ e : QEntry,
        format_selector e =
          match selectionOf e with
          | FormatSelection.Single fid => fid
          | FormatSelection.Paired v a => v ++ "+" ++ a) ∧
    (resolve [mkComb "c720" 720 2000]).map (fun p => (p.1, selectionOf p.2)) =
      [("720p", FormatSelection.Single "c720")] := by
  constructor
  · intro e
    cases e <;> rfl
  · rw [resolve, (by decide : quality_map [mkComb "c720" 720 2000] =
      [("720p", QEntry.comb (mkComb "c720" 720 2000))]),
      List.mergeSort_of_sorted (by simp)]
    rfl

/-- Claim C10: with a quality selected and a URL entered, a download request
made while a download thread is alive is answered with "already in progress"
and leaves the whole application state unchanged. -/
theorem C10_second_download_rejected (s : AppState) (hq : s.quality_var ≠ "")
    (hu : s.url_var ≠ "") (ha : s.downloadActive = true) :
    download_video s = (s, DownloadOutcome.alreadyInProgress) := by
  unfold download_video
  rw [if_neg (by push_neg; exact ⟨hq, hu⟩), if_pos ha]

/-- Witness for C10 at a concrete busy state. -/
theorem C10_witness :
    download_video ⟨"https://example.com/v", "720p", true, []⟩ =
      (⟨"https://example.com/v", "720p", true, []⟩,
        DownloadOutcome.alreadyInProgress) :=
  C10_second_download_rejected ⟨"https://example.com/v", "720p", true, []⟩
    (by decide) (by decide) rfl
